import Mathlib

/-!
Shallow embedding of `validate_json_id.py` (a Streamlit utility that
validates and corrects the `id` fields of a JSON document) together with
proofs about it.

Python strings are modelled as `List Char`.  Machine-level details that are
immaterial here (Unicode case mappings outside ASCII, floating-point JSON
numbers) are noted at the definition they concern.
-/

namespace ValidateJsonId

/-! ## The normalizer: `clean_id` (source lines 5–19) -/

/-- `str.lower`, modelled on ASCII: `A`–`Z` map to `a`–`z`, everything else
is fixed.  (Python also lowercases non-ASCII letters, but every character
involved in such a mapping is outside `[a-z_]` both before and after
lowering with a handful of exotic exceptions that none of the claims
touch, so the ASCII model is used.) -/
def pyLower (c : Char) : Char :=
  if 'A' ≤ c ∧ c ≤ 'Z' then Char.ofNat (c.toNat + 32) else c

/-- Membership in the character class `[a-z_]` of the regex on source
line 18: the strict allowed set. -/
def isAllowedStrict (c : Char) : Bool :=
  ('a' ≤ c ∧ c ≤ 'z') ∨ c = '_'

/-- `clean_id` (source lines 5–19): lowercase, then
`.replace(" ", "")` (= drop every space character), then
`re.sub(r'[^a-z_]', '', ·)` (= keep exactly the characters in `[a-z_]`). -/
def clean_id (s : List Char) : List Char :=
  ((s.map pyLower).filter (fun c => ¬ (c = ' '))).filter isAllowedStrict

/-- Modelled from the spec: the *permissive* normalization policy
(allowed set `{a-z, 0-9, _}`) described in spec §4.1, which is not
present in `src/` — the source implements only the strict policy.
Used solely to compare the implemented normalizer against the policy
the spec says must also be supported. -/
def isAllowedPermissive (c : Char) : Bool :=
  ('a' ≤ c ∧ c ≤ 'z') ∨ ('0' ≤ c ∧ c ≤ '9') ∨ c = '_'

/-- Modelled from the spec (§4.1): the permissive-policy normalizer —
lowercase, remove spaces, remove every character outside the permissive
allowed set. -/
def permissive_normalize (s : List Char) : List Char :=
  ((s.map pyLower).filter (fun c => ¬ (c = ' '))).filter isAllowedPermissive

section NormalizerLemmas

lemma pyLower_eq_self_of_allowed {c : Char} (h : isAllowedStrict c = true) :
    pyLower c = c := by
  unfold isAllowedStrict at h
  unfold pyLower
  rw [decide_eq_true_eq] at h
  rcases h with h | h
  · rw [if_neg]
    rintro ⟨hA, hZ⟩
    exact absurd (le_trans h.1 hZ) (by decide)
  · subst h
    decide

lemma allowed_ne_space {c : Char} (h : isAllowedStrict c = true) : c ≠ ' ' := by
  unfold isAllowedStrict at h
  rw [decide_eq_true_eq] at h
  rintro rfl
  rcases h with h | h
  · exact absurd h.1 (by decide)
  · exact absurd h (by decide)

/-- Every character of a `clean_id` result lies in the strict allowed set. -/
lemma mem_clean_id_allowed {s : List Char} {c : Char} (h : c ∈ clean_id s) :
    isAllowedStrict c = true := by
  unfold clean_id at h
  exact (List.mem_filter.mp h).2

/-- `clean_id` is the identity on lists all of whose characters are in the
strict allowed set. -/
lemma clean_id_of_allowed {s : List Char}
    (h : ∀ c ∈ s, isAllowedStrict c = true) : clean_id s = s := by
  unfold clean_id
  induction s with
  | nil => rfl
  | cons c cs ih =>
    have hc : isAllowedStrict c = true := h c (List.mem_cons_self c cs)
    have hcs : ∀ x ∈ cs, isAllowedStrict x = true :=
      fun x hx => h x (List.mem_cons_of_mem c hx)
    simp only [List.map_cons, pyLower_eq_self_of_allowed hc]
    rw [List.filter_cons, if_pos (by simpa using allowed_ne_space hc)]
    rw [List.filter_cons, if_pos hc]
    simpa using ih hcs

end NormalizerLemmas

/-! ## The annotator: `highlight_ids_in_text` (source lines 21–41) -/

/-- The quoted literal `"<s>"`: a double quote, the characters of `s`, a
double quote. -/
def quoted (s : List Char) : List Char := '\"' :: (s ++ ['\"'])

/-- The highlight span of source line 36:
`<span style='background-color: yellow; color: red;' title='{reason}'>{orig_id}</span>`. -/
def spanFor (orig_id reason : List Char) : List Char :=
  ("<span style='background-color: yellow; color: red;' title='".data)
    ++ reason ++ ("'>".data) ++ orig_id ++ ("</span>".data)

/-- Python `str.replace(pat, repl)`: scan left to right, replacing each
leftmost non-overlapping occurrence of `pat`; the replacement text is not
rescanned.  (Python treats an empty pattern specially — it never arises
here, since every pattern used is `quoted _`, which is nonempty.) -/
def replaceSub (pat repl : List Char) : List Char → List Char
  | [] => []
  | c :: rest =>
    if h : pat ≠ [] ∧ pat.isPrefixOf (c :: rest) = true then
      repl ++ replaceSub pat repl (List.drop pat.length (c :: rest))
    else
      c :: replaceSub pat repl rest
termination_by t => t.length
decreasing_by
  · simp only [List.length_drop, List.length_cons]
    exact Nat.sub_lt (Nat.succ_pos _) (List.length_pos.mpr h.1)
  · simp only [List.length_cons]
    exact Nat.lt_succ_self _

/-- Prepend a character to the first group of a split (the groups are the
maximal pattern-free pieces). -/
def consHead (c : Char) : List (List Char) → List (List Char)
  | [] => [[c]]
  | g :: gs => (c :: g) :: gs

/-- Split a text at each leftmost non-overlapping occurrence of `pat`:
the pieces between (and around) the occurrences, in order. -/
def splitOnSub (pat : List Char) : List Char → List (List Char)
  | [] => [[]]
  | c :: rest =>
    if h : pat ≠ [] ∧ pat.isPrefixOf (c :: rest) = true then
      [] :: splitOnSub pat (List.drop pat.length (c :: rest))
    else
      consHead c (splitOnSub pat rest)
termination_by t => t.length
decreasing_by
  · simp only [List.length_drop, List.length_cons]
    exact Nat.sub_lt (Nat.succ_pos _) (List.length_pos.mpr h.1)
  · simp only [List.length_cons]
    exact Nat.lt_succ_self _

/-- Join groups with a separator. -/
def joinWith (sep : List Char) : List (List Char) → List Char
  | [] => []
  | [g] => g
  | g :: gs => g ++ sep ++ joinWith sep gs

/-- Modelled from the spec (§4.3): "perform exact substring replacement of
the quoted literal" — every occurrence of the pattern is replaced, which is
captured pattern-freely as: split the text at the occurrences of the
pattern and rejoin the pieces with the replacement. -/
def replaceEveryOccurrence (pat repl t : List Char) : List Char :=
  joinWith repl (splitOnSub pat t)

/-- `highlight_ids_in_text` (source lines 21–41): fold over the reason
registry in insertion order; for each pair replace the quoted original id
by the quoted highlight span in the progressively rewritten text. -/
def highlight_ids_in_text (original_text : List Char)
    (invalid_ids : List (List Char × List Char)) : List Char :=
  invalid_ids.foldl
    (fun acc pr => replaceSub (quoted pr.1) (quoted (spanFor pr.1 pr.2)) acc)
    original_text

section AnnotatorLemmas

lemma splitOnSub_ne_nil (pat t : List Char) : splitOnSub pat t ≠ [] := by
  cases t with
  | nil =>
    rw [splitOnSub]
    exact List.cons_ne_nil _ _
  | cons c rest =>
    rw [splitOnSub]
    split
    · exact List.cons_ne_nil _ _
    · cases splitOnSub pat rest with
      | nil => exact List.cons_ne_nil _ _
      | cons g gs => exact List.cons_ne_nil _ _

lemma joinWith_consHead (sep : List Char) (c : Char) (gs : List (List Char)) :
    joinWith sep (consHead c gs) = c :: joinWith sep gs := by
  cases gs with
  | nil => rfl
  | cons g gs' =>
    cases gs' with
    | nil => rfl
    | cons g2 gs'' => rfl

lemma joinWith_nil_cons (sep : List Char) {gs : List (List Char)}
    (h : gs ≠ []) : joinWith sep ([] :: gs) = sep ++ joinWith sep gs := by
  cases gs with
  | nil => exact absurd rfl h
  | cons g gs' => rfl

/-- The scanning replacement of the source equals the split-and-rejoin
"replace every occurrence" of the spec. -/
lemma replaceSub_eq_replaceEveryOccurrence (pat repl t : List Char) :
    replaceSub pat repl t = replaceEveryOccurrence pat repl t := by
  unfold replaceEveryOccurrence
  induction t using splitOnSub.induct pat with
  | case1 =>
    rw [replaceSub, splitOnSub]
    rfl
  | case2 c rest h ih =>
    rw [replaceSub, splitOnSub, dif_pos h, dif_pos h,
      joinWith_nil_cons repl (splitOnSub_ne_nil _ _), ih]
  | case3 c rest h ih =>
    rw [replaceSub, splitOnSub, dif_neg h, dif_neg h, joinWith_consHead, ih]

end AnnotatorLemmas

/-! ## JSON values and the Python dict/set operations the loop uses -/

/-- A parsed JSON value.  `obj` models a Python dict as produced by
`json.loads`: an insertion-ordered association list with unique keys.
Numbers are carried as `Int` (no claim touches floating point; the
modelled parser rejects non-integer numerals, see `parseNum`). -/
inductive Json where
  | null : Json
  | bool (b : Bool) : Json
  | num (n : Int) : Json
  | str (s : List Char) : Json
  | arr (elems : List Json) : Json
  | obj (members : List (List Char × Json)) : Json

/-- Python `d[key]` on a dict, as `Option`. -/
def dictGet {α : Type} : List (List Char × α) → List Char → Option α
  | [], _ => none
  | (k, v) :: rest, key => if k = key then some v else dictGet rest key

/-- Python `d[key] = v`: update in place when the key exists (its position
is kept), append otherwise. -/
def dictSet {α : Type} : List (List Char × α) → List Char → α → List (List Char × α)
  | [], key, v => [(key, v)]
  | (k, w) :: rest, key, v =>
    if k = key then (key, v) :: rest else (k, w) :: dictSet rest key v

/-- The keys of a dict, in order. -/
def dictKeys {α : Type} (kvs : List (List Char × α)) : List (List Char) :=
  kvs.map Prod.fst

/-- Python `s.add(x)` on a set, modelled as a list carrying each member
once. -/
def setAdd (s : List (List Char)) (x : List Char) : List (List Char) :=
  if x ∈ s then s else x :: s

/-- An exception the loop body can raise (and `main` does not catch):
`TypeError` from `"id" in obj` on a non-container or from indexing a
list/str with the string `"id"`; `AttributeError` from `.lower()` on a
non-string `id` value inside `clean_id`. -/
inductive PyErr where
  | typeError : PyErr
  | attributeError : PyErr
  deriving DecidableEq

/-! ## The validation loop of `main` (source lines 74–96) -/

/-- The mutable state of the loop: `cleaned_ids` (the seen-canonical set),
`invalid_ids` (the reason registry), `id_map`, and the processed entries
in order (`out`).  `dupFlags` is instrumentation only: it records, for
each `id`-bearing entry in order, whether the duplicate branch of source
line 89 fired; no other field depends on it. -/
structure LoopState where
  cleaned_ids : List (List Char)
  invalid_ids : List (List Char × List Char)
  id_map : List (List Char × List Char)
  out : List Json
  dupFlags : List Bool

def initState : LoopState := ⟨[], [], [], [], []⟩

def idKey : List Char := "id".data

def invalidMsg : List Char := "invalid characters or uppercase".data

def dupWord : List Char := "duplicate".data

def dupSuffix : List Char := " (duplicate)".data

/-- Python `needle in hay` on strings: the substring test. -/
def strContains : List Char → List Char → Bool
  | [], needle => needle.isEmpty
  | c :: rest, needle => needle.isPrefixOf (c :: rest) || strContains rest needle

/-- Python `elem == key` for an element of a list, `key` a `str`: true
exactly for the equal string (a non-string JSON value never equals a
Python `str`). -/
def pyEqStr (key : List Char) (e : Json) : Bool :=
  match e with
  | .str s => decide (s = key)
  | _ => false

/-- Source lines 84–91: how one `id`-bearing entry updates the reason
registry.  Line 85–86: when the canonical differs, the reason is set
(reset) to `invalidMsg`.  Lines 89–91: when the canonical is already in
the seen set, the current reason (empty default) gets `" (duplicate)"`
appended when nonempty, else becomes `"duplicate"`. -/
def registryUpdate (inv : List (List Char × List Char))
    (cleaned : List (List Char)) (orig_id : List Char) :
    List (List Char × List Char) :=
  let new_id := clean_id orig_id
  let inv1 :=
    if ¬ (new_id = orig_id) then dictSet inv orig_id invalidMsg
    else inv
  if new_id ∈ cleaned then
    let cur := (dictGet inv1 orig_id).getD []
    dictSet inv1 orig_id (cur ++ (if cur = [] then dupWord else dupSuffix))
  else inv1

/-- The loop body (source lines 79–96) on one element of `data["objects"]`.
`"id" in obj` is a dict-key test for a dict, a membership test for a list,
a substring test for a string, and a `TypeError` otherwise; `obj["id"]`
with a string key is a `TypeError` on a list or string; `clean_id` calls
`.lower()`, an `AttributeError` on a non-string `id` value. -/
def processEntry (st : LoopState) (entry : Json) : Except PyErr LoopState :=
  match entry with
  | .obj kvs =>
    match dictGet kvs idKey with
    | none => .ok { st with out := st.out ++ [entry] }
    | some (.str orig_id) =>
      let new_id := clean_id orig_id
      .ok
        { cleaned_ids := setAdd st.cleaned_ids new_id  -- line 92
          invalid_ids := registryUpdate st.invalid_ids st.cleaned_ids orig_id
          id_map := dictSet st.id_map orig_id new_id   -- line 96
          out := st.out ++ [Json.obj (dictSet kvs idKey (.str new_id))]  -- line 95
          dupFlags := st.dupFlags ++ [decide (new_id ∈ st.cleaned_ids)] }
    | some _ => .error .attributeError
  | .arr elems =>
    if elems.any (pyEqStr idKey) then .error .typeError
    else .ok { st with out := st.out ++ [entry] }
  | .str s =>
    if strContains s idKey then .error .typeError
    else .ok { st with out := st.out ++ [entry] }
  | _ => .error .typeError

/-- The loop over `data["objects"]`, stopping at the first raised
exception. -/
def processEntries : LoopState → List Json → Except PyErr LoopState
  | st, [] => .ok st
  | st, e :: es =>
    match processEntry st e with
    | .error err => .error err
    | .ok st2 => processEntries st2 es

/-- The whole loop from the fresh state of source lines 74–77. -/
def runEntries (entries : List Json) : Except PyErr LoopState :=
  processEntries initState entries

/-! ## The validation boundary of `main` (source lines 57–114) -/

/-- The whitespace `str.strip()` removes (ASCII; Python also strips some
Unicode whitespace, which no claim exercises). -/
def isPySpace (c : Char) : Bool :=
  c = ' ' ∨ c = '\t' ∨ c = '\n' ∨ c = '\r' ∨ c = '\x0b' ∨ c = '\x0c'

/-- Python `text.strip()`. -/
def pyStrip (t : List Char) : List Char :=
  ((t.dropWhile isPySpace).reverse.dropWhile isPySpace).reverse

/-- JSON inter-token whitespace. -/
def isJsonWs (c : Char) : Bool :=
  c = ' ' ∨ c = '\t' ∨ c = '\n' ∨ c = '\r'

def skipWs (t : List Char) : List Char := t.dropWhile isJsonWs

/-- A JSON string escape after the backslash (`\uXXXX` is not modelled:
no claim exercises it). -/
def escChar (c : Char) : Option Char :=
  if c = '\"' then some '\"'
  else if c = '\\' then some '\\'
  else if c = '/' then some '/'
  else if c = 'n' then some '\n'
  else if c = 't' then some '\t'
  else if c = 'r' then some '\r'
  else if c = 'b' then some (Char.ofNat 8)
  else if c = 'f' then some (Char.ofNat 12)
  else none

def msgUnterminated : List Char := "Unterminated string".data

def msgBadEscape : List Char := "Invalid escape".data

def msgExpectedValue : List Char := "Expecting value".data

def msgFloat : List Char := "non-integer numbers not modelled".data

def msgDelim : List Char := "Expecting delimiter".data

def msgExtraData : List Char := "Extra data".data

def msgDepth : List Char := "nesting too deep".data

/-- The body of a JSON string after its opening quote: the decoded
characters and the rest of the input after the closing quote. -/
def parseStrBody : List Char → Except (List Char) (List Char × List Char)
  | [] => .error msgUnterminated
  | c :: rest =>
    if c = '\"' then .ok ([], rest)
    else if c = '\\' then
      match rest with
      | [] => .error msgUnterminated
      | e :: rest2 =>
        match escChar e with
        | some ce =>
          match parseStrBody rest2 with
          | .ok (s, r) => .ok (ce :: s, r)
          | .error m => .error m
        | none => .error msgBadEscape
    else
      match parseStrBody rest with
      | .ok (s, r) => .ok (c :: s, r)
      | .error m => .error m

def isDigit (c : Char) : Bool := '0' ≤ c ∧ c ≤ '9'

def digitVal (c : Char) : Nat := c.toNat - 48

/-- An integer JSON numeral.  A numeral continuing with `.`, `e` or `E`
(a float) is rejected by the model: no claim involves non-integer
numbers. -/
def parseNum (t : List Char) : Except (List Char) (Json × List Char) :=
  let (neg, t1) := match t with
    | '-' :: r => (true, r)
    | _ => (false, t)
  let ds := t1.takeWhile isDigit
  let rest := t1.dropWhile isDigit
  if ds = [] then .error msgExpectedValue
  else
    match rest with
    | c :: _ =>
      if c = '.' ∨ c = 'e' ∨ c = 'E' then .error msgFloat
      else
        let n : Nat := ds.foldl (fun acc c => 10 * acc + digitVal c) 0
        .ok (.num (if neg then -(n : Int) else (n : Int)), rest)
    | [] =>
      let n : Nat := ds.foldl (fun acc c => 10 * acc + digitVal c) 0
      .ok (.num (if neg then -(n : Int) else (n : Int)), rest)

/-- Remove the first binding of `key` (used to collapse a duplicated
object key the way repeated Python dict assignment does). -/
def dictRemove {α : Type} : List (List Char × α) → List Char → List (List Char × α)
  | [], _ => []
  | (k, w) :: rest, key =>
    if k = key then rest else (k, w) :: dictRemove rest key

mutual

/-- Modelled from the spec (§6: the input "expected to be syntactically
valid structured data (parseable as the chosen serialization format)"):
the JSON parser standing for Python's `json.loads`, whose code is the
standard library's, not this repository's.  Recursion is fuelled; the
caller supplies fuel larger than any possible nesting.  Lenient on
trailing commas and restricted to integer numerals — neither difference
is exercised by any claim. -/
def parseVal : Nat → List Char → Except (List Char) (Json × List Char)
  | 0, _ => .error msgDepth
  | Nat.succ fuel, t =>
    match skipWs t with
    | [] => .error msgExpectedValue
    | c :: rest =>
      if c = '\"' then
        match parseStrBody rest with
        | .ok (s, r) => .ok (.str s, r)
        | .error m => .error m
      else if c = '\x7b' then
        match parseMembers fuel (skipWs rest) with
        | .ok (ms, r) => .ok (.obj ms, r)
        | .error m => .error m
      else if c = '[' then
        match parseElems fuel (skipWs rest) with
        | .ok (vs, r) => .ok (.arr vs, r)
        | .error m => .error m
      else if ("true".data).isPrefixOf (c :: rest) then
        .ok (.bool true, (c :: rest).drop 4)
      else if ("false".data).isPrefixOf (c :: rest) then
        .ok (.bool false, (c :: rest).drop 5)
      else if ("null".data).isPrefixOf (c :: rest) then
        .ok (.null, (c :: rest).drop 4)
      else parseNum (c :: rest)

/-- The elements of an array after its `[` (input already
whitespace-skipped). -/
def parseElems : Nat → List Char → Except (List Char) (List Json × List Char)
  | 0, _ => .error msgDepth
  | Nat.succ fuel, t =>
    match t with
    | ']' :: rest => .ok ([], rest)
    | t' =>
      match parseVal fuel t' with
      | .error m => .error m
      | .ok (v, r1) =>
        match skipWs r1 with
        | ',' :: r2 =>
          match parseElems fuel (skipWs r2) with
          | .ok (vs, r3) => .ok (v :: vs, r3)
          | .error m => .error m
        | ']' :: r2 => .ok ([v], r2)
        | _ => .error msgDelim

/-- The members of an object after its `{` (input already
whitespace-skipped).  A repeated key keeps its first position and its
last value, as repeated Python dict assignment does. -/
def parseMembers : Nat → List Char → Except (List Char) (List (List Char × Json) × List Char)
  | 0, _ => .error msgDepth
  | Nat.succ fuel, t =>
    match t with
    | '\x7d' :: rest => .ok ([], rest)
    | '\"' :: rest =>
      match parseStrBody rest with
      | .error m => .error m
      | .ok (key, r1) =>
        match skipWs r1 with
        | ':' :: r2 =>
          match parseVal fuel (skipWs r2) with
          | .error m => .error m
          | .ok (v, r3) =>
            match skipWs r3 with
            | ',' :: r4 =>
              match parseMembers fuel (skipWs r4) with
              | .error m => .error m
              | .ok (ms, r5) =>
                match dictGet ms key with
                | some v2 => .ok ((key, v2) :: dictRemove ms key, r5)
                | none => .ok ((key, v) :: ms, r5)
            | '\x7d' :: r4 => .ok ([(key, v)], r4)
            | _ => .error msgDelim
        | _ => .error msgDelim
    | _ => .error msgDelim

end

/-- `json.loads` on the whole input text (source line 65). -/
def json_loads (t : List Char) : Except (List Char) Json :=
  match parseVal (2 * t.length + 2) t with
  | .error m => .error m
  | .ok (v, rest) => if skipWs rest = [] then .ok v else .error msgExtraData

def objectsKey : List Char := "objects".data

/-- The check of source line 70:
`"objects" not in data or not isinstance(data["objects"], list)`.
Returns the entry list when the check passes, `none` when the run must
stop with the schema error, and raises exactly where Python raises:
`"objects" in data` is a `TypeError` on a number, boolean or `null`, and
`data["objects"]` is a `TypeError` on a list or string. -/
def getObjects (data : Json) : Except PyErr (Option (List Json)) :=
  match data with
  | .obj kvs =>
    match dictGet kvs objectsKey with
    | none => .ok none
    | some (.arr xs) => .ok (some xs)
    | some _ => .ok none
  | .arr elems =>
    if elems.any (pyEqStr objectsKey) then .error .typeError else .ok none
  | .str s =>
    if strContains s objectsKey then .error .typeError else .ok none
  | _ => .error .typeError

/-- What one validation run can report back to the caller: the three
user-facing error kinds of source lines 60–72, a success, or — the case
the code does not handle — an exception escaping the loop
(`pyException`). -/
inductive VError where
  | emptyInput : VError
  | parseError (msg : List Char) : VError
  | schemaError : VError
  | pyException (e : PyErr) : VError

/-- A successful run's artifacts: the corrected document (serialized on
source line 112), the reason registry, and the annotated original text,
produced exactly when the registry is nonempty (source lines 99–106). -/
structure RunOutput where
  corrected : Json
  invalid_ids : List (List Char × List Char)
  highlighted : Option (List Char)

/-- Overwrite the `objects` member with the processed entry list (the
Python code mutates the same list in place; serialization reads it back
from `data`).  Only reached with `data` an object. -/
def setObjects (data : Json) (v : Json) : Json :=
  match data with
  | .obj kvs => .obj (dictSet kvs objectsKey v)
  | other => other

/-- One validation run (the body of the button handler, source lines
59–114): the empty-input check, `json.loads`, the schema check, the loop,
and the assembly of the outputs.  An exception raised by the loop or the
schema check is not caught anywhere in `main`: it surfaces as
`pyException`. -/
def runValidation (text : List Char) : Except VError RunOutput :=
  if pyStrip text = [] then .error .emptyInput
  else
    match json_loads text with
    | .error m => .error (.parseError m)
    | .ok data =>
      match getObjects data with
      | .error e => .error (.pyException e)
      | .ok none => .error .schemaError
      | .ok (some xs) =>
        match runEntries xs with
        | .error e => .error (.pyException e)
        | .ok st =>
          .ok { corrected := setObjects data (.arr st.out)
                invalid_ids := st.invalid_ids
                highlighted :=
                  if st.invalid_ids = [] then none
                  else some (highlight_ids_in_text text st.invalid_ids) }

/-! ## Lemmas about the dict and set operations -/

section DictLemmas

variable {α : Type}

lemma dictSet_nil (k : List Char) (v : α) : dictSet ([] : List (List Char × α)) k v = [(k, v)] :=
  rfl

lemma dictSet_cons_self (rest : List (List Char × α)) (k : List Char) (v w : α) :
    dictSet ((k, w) :: rest) k v = (k, v) :: rest := by
  simp [dictSet]

lemma dictSet_cons_ne (rest : List (List Char × α)) {k k2 : List Char} (v w : α)
    (h : ¬ (k2 = k)) : dictSet ((k2, w) :: rest) k v = (k2, w) :: dictSet rest k v := by
  simp [dictSet, h]

lemma dictGet_cons_self (rest : List (List Char × α)) (k : List Char) (v : α) :
    dictGet ((k, v) :: rest) k = some v := by
  simp [dictGet]

lemma dictGet_cons_ne (rest : List (List Char × α)) {k k' : List Char} (v : α)
    (h : ¬ (k = k')) : dictGet ((k, v) :: rest) k' = dictGet rest k' := by
  simp [dictGet, h]

lemma dictGet_dictSet_self (d : List (List Char × α)) (k : List Char) (v : α) :
    dictGet (dictSet d k v) k = some v := by
  induction d with
  | nil => rw [dictSet_nil, dictGet_cons_self]
  | cons kv rest ih =>
    obtain ⟨k', w⟩ := kv
    by_cases h : k' = k
    · subst h
      rw [dictSet_cons_self, dictGet_cons_self]
    · rw [dictSet_cons_ne rest v w h, dictGet_cons_ne _ _ h, ih]

lemma dictGet_dictSet_ne (d : List (List Char × α)) {k k' : List Char} (v : α)
    (h : ¬ (k' = k)) : dictGet (dictSet d k v) k' = dictGet d k' := by
  induction d with
  | nil =>
    rw [dictSet_nil, dictGet_cons_ne _ _ (fun hh => h hh.symm)]
  | cons kv rest ih =>
    obtain ⟨k'', w⟩ := kv
    by_cases h2 : k'' = k
    · subst h2
      rw [dictSet_cons_self, dictGet_cons_ne _ _ (fun hh => h hh.symm),
        dictGet_cons_ne _ _ (fun hh => h hh.symm)]
    · rw [dictSet_cons_ne rest v w h2]
      by_cases h3 : k'' = k'
      · subst h3
        rw [dictGet_cons_self, dictGet_cons_self]
      · rw [dictGet_cons_ne _ _ h3, dictGet_cons_ne _ _ h3, ih]

lemma dictKeys_cons (k : List Char) (v : α) (rest : List (List Char × α)) :
    dictKeys ((k, v) :: rest) = k :: dictKeys rest :=
  rfl

lemma mem_dictKeys_dictSet (d : List (List Char × α)) (k : List Char) (v : α)
    (k' : List Char) :
    k' ∈ dictKeys (dictSet d k v) ↔ k' = k ∨ k' ∈ dictKeys d := by
  induction d with
  | nil => simp [dictSet_nil, dictKeys]
  | cons kv rest ih =>
    obtain ⟨k'', w⟩ := kv
    by_cases h : k'' = k
    · subst h
      rw [dictSet_cons_self, dictKeys_cons, dictKeys_cons]
      simp only [List.mem_cons]
      tauto
    · rw [dictSet_cons_ne rest v w h, dictKeys_cons, dictKeys_cons]
      simp only [List.mem_cons, ih]
      tauto

lemma nodup_dictKeys_dictSet (d : List (List Char × α)) (k : List Char) (v : α)
    (h : (dictKeys d).Nodup) : (dictKeys (dictSet d k v)).Nodup := by
  induction d with
  | nil =>
    rw [dictSet_nil, dictKeys_cons]
    exact List.nodup_singleton k
  | cons kv rest ih =>
    obtain ⟨k'', w⟩ := kv
    rw [dictKeys_cons, List.nodup_cons] at h
    by_cases h2 : k'' = k
    · subst h2
      rw [dictSet_cons_self, dictKeys_cons, List.nodup_cons]
      exact h
    · rw [dictSet_cons_ne rest v w h2, dictKeys_cons, List.nodup_cons]
      refine ⟨?_, ih h.2⟩
      rw [mem_dictKeys_dictSet]
      rintro (rfl | hmem)
      · exact h2 rfl
      · exact h.1 hmem

lemma mem_setAdd (s : List (List Char)) (x c : List Char) :
    c ∈ setAdd s x ↔ c = x ∨ c ∈ s := by
  unfold setAdd
  split
  · constructor
    · tauto
    · rintro (rfl | h)
      · assumption
      · assumption
  · simp

lemma mem_setAdd_self (s : List (List Char)) (x : List Char) : x ∈ setAdd s x :=
  (mem_setAdd s x x).mpr (Or.inl rfl)

end DictLemmas

/-! ## Characterizations of the loop -/

/-- The canonical id an entry contributes: `some (clean_id s)` exactly for
a dict entry whose `id` value is the string `s`. -/
def entryCanon (e : Json) : Option (List Char) :=
  match e with
  | .obj kvs =>
    match dictGet kvs idKey with
    | some (.str s) => some (clean_id s)
    | _ => none
  | _ => none

/-- The canonical ids of the `id`-bearing entries, in input order. -/
def canonsOf (entries : List Json) : List (List Char) :=
  entries.filterMap entryCanon

/-- Whether the loop runs to completion (no exception) on `entries`. -/
def entriesOk (entries : List Json) : Bool :=
  match runEntries entries with
  | .ok _ => true
  | .error _ => false

/-- The reason registry a completed run leaves (`[]` when the loop
raises). -/
def finalReasons (entries : List Json) : List (List Char × List Char) :=
  match runEntries entries with
  | .ok st => st.invalid_ids
  | .error _ => []

/-- How one entry rewrites in the corrected output: an `id`-bearing dict
gets its `id` overwritten with the canonical form; everything else is
passed through untouched. -/
def correctEntry (e : Json) : Json :=
  match e with
  | .obj kvs =>
    match dictGet kvs idKey with
    | some (.str s) => .obj (dictSet kvs idKey (.str (clean_id s)))
    | _ => e
  | _ => e

lemma correctEntry_eq_self_of_none {e : Json} (h : entryCanon e = none) :
    correctEntry e = e := by
  cases e with
  | obj kvs =>
    cases hid : dictGet kvs idKey with
    | none => simp only [correctEntry, hid]
    | some v =>
      cases v with
      | str s =>
        simp only [entryCanon, hid] at h
        exact absurd h (by simp)
      | null => simp only [correctEntry, hid]
      | bool b => simp only [correctEntry, hid]
      | num n => simp only [correctEntry, hid]
      | arr xs => simp only [correctEntry, hid]
      | obj ms => simp only [correctEntry, hid]
  | null => rfl
  | bool b => rfl
  | num n => rfl
  | str s => rfl
  | arr xs => rfl

/-- A successful step is one of exactly two shapes: the `id`-bearing dict
update of source lines 82–96, or the untouched pass-through of an entry
with no `id`. -/
lemma processEntry_ok_cases {st st' : LoopState} {e : Json}
    (h : processEntry st e = .ok st') :
    (∃ kvs orig, e = .obj kvs ∧ dictGet kvs idKey = some (.str orig) ∧
      st' = { cleaned_ids := setAdd st.cleaned_ids (clean_id orig)
              invalid_ids := registryUpdate st.invalid_ids st.cleaned_ids orig
              id_map := dictSet st.id_map orig (clean_id orig)
              out := st.out ++ [Json.obj (dictSet kvs idKey (.str (clean_id orig)))]
              dupFlags := st.dupFlags ++ [decide (clean_id orig ∈ st.cleaned_ids)] }) ∨
    (entryCanon e = none ∧ st' = { st with out := st.out ++ [e] }) := by
  cases e with
  | obj kvs =>
    cases hid : dictGet kvs idKey with
    | none =>
      simp only [processEntry, hid] at h
      right
      refine ⟨by simp only [entryCanon, hid], ?_⟩
      cases h
      rfl
    | some v =>
      cases v with
      | str s =>
        simp only [processEntry, hid] at h
        left
        refine ⟨kvs, s, rfl, hid, ?_⟩
        cases h
        rfl
      | null =>
        simp only [processEntry, hid] at h
        exact absurd h (by simp)
      | bool b =>
        simp only [processEntry, hid] at h
        exact absurd h (by simp)
      | num n =>
        simp only [processEntry, hid] at h
        exact absurd h (by simp)
      | arr xs =>
        simp only [processEntry, hid] at h
        exact absurd h (by simp)
      | obj ms =>
        simp only [processEntry, hid] at h
        exact absurd h (by simp)
  | arr elems =>
    simp only [processEntry] at h
    by_cases hc : elems.any (pyEqStr idKey) = true
    · rw [if_pos hc] at h
      exact absurd h (by simp)
    · rw [if_neg hc] at h
      right
      refine ⟨rfl, ?_⟩
      cases h
      rfl
  | str s =>
    simp only [processEntry] at h
    by_cases hc : strContains s idKey = true
    · rw [if_pos hc] at h
      exact absurd h (by simp)
    · rw [if_neg hc] at h
      right
      refine ⟨rfl, ?_⟩
      cases h
      rfl
  | null =>
    simp only [processEntry] at h
    exact absurd h (by simp)
  | bool b =>
    simp only [processEntry] at h
    exact absurd h (by simp)
  | num n =>
    simp only [processEntry] at h
    exact absurd h (by simp)

lemma canonsOf_nil : canonsOf [] = [] := rfl

lemma canonsOf_cons_some {e : Json} {c : List Char} (es : List Json)
    (h : entryCanon e = some c) : canonsOf (e :: es) = c :: canonsOf es := by
  simp [canonsOf, List.filterMap_cons, h]

lemma canonsOf_cons_none {e : Json} (es : List Json)
    (h : entryCanon e = none) : canonsOf (e :: es) = canonsOf es := by
  simp [canonsOf, List.filterMap_cons, h]

lemma entryCanon_obj_id {kvs : List (List Char × Json)} {orig : List Char}
    (hid : dictGet kvs idKey = some (.str orig)) :
    entryCanon (.obj kvs) = some (clean_id orig) := by
  simp only [entryCanon, hid]

lemma correctEntry_obj_id {kvs : List (List Char × Json)} {orig : List Char}
    (hid : dictGet kvs idKey = some (.str orig)) :
    correctEntry (.obj kvs) = .obj (dictSet kvs idKey (.str (clean_id orig))) := by
  simp only [correctEntry, hid]

/-- Which keys the registry holds after one `id`-bearing entry: the old
keys, plus the entry's original id exactly when line 85 or line 89
flagged it. -/
lemma mem_dictKeys_registryUpdate (inv : List (List Char × List Char))
    (cleaned : List (List Char)) (orig k : List Char) :
    k ∈ dictKeys (registryUpdate inv cleaned orig) ↔
      k ∈ dictKeys inv ∨
        (k = orig ∧ (¬ (clean_id orig = orig) ∨ clean_id orig ∈ cleaned)) := by
  simp only [registryUpdate]
  split_ifs <;> (try simp only [mem_dictKeys_dictSet]) <;> tauto

lemma processEntries_append (st : LoopState) (l1 l2 : List Json) :
    processEntries st (l1 ++ l2) =
      match processEntries st l1 with
      | .error e => .error e
      | .ok st2 => processEntries st2 l2 := by
  induction l1 generalizing st with
  | nil => rfl
  | cons e es ih =>
    simp only [List.cons_append, processEntries]
    cases processEntry st e with
    | error err => rfl
    | ok st2 => exact ih st2

/-- What a completed run of the loop leaves in the state: the seen set is
the starting one plus the canonicals of the processed entries, registry
keys are never dropped, and the output is the input mapped entrywise
through `correctEntry`. -/
lemma processEntries_ok_state {l : List Json} {st : LoopState} :
    ∀ {st0 : LoopState}, processEntries st0 l = .ok st →
      (∀ c, c ∈ st.cleaned_ids ↔ c ∈ st0.cleaned_ids ∨ c ∈ canonsOf l) ∧
      (∀ k, k ∈ dictKeys st0.invalid_ids → k ∈ dictKeys st.invalid_ids) ∧
      st.out = st0.out ++ l.map correctEntry := by
  induction l with
  | nil =>
    intro st0 h
    cases h
    exact ⟨fun c => by simp [canonsOf_nil], fun k hk => hk, by simp⟩
  | cons e es ih =>
    intro st0 h
    simp only [processEntries] at h
    cases hpe : processEntry st0 e with
    | error err =>
      rw [hpe] at h
      exact absurd h (by simp)
    | ok st1 =>
      rw [hpe] at h
      obtain ⟨ih1, ih2, ih3⟩ := ih h
      rcases processEntry_ok_cases hpe with ⟨kvs, orig, rfl, hid, rfl⟩ | ⟨hc, rfl⟩
      · refine ⟨fun c => ?_, fun k hk => ?_, ?_⟩
        · rw [ih1 c]
          simp only [mem_setAdd, canonsOf_cons_some es (entryCanon_obj_id hid),
            List.mem_cons]
          tauto
        · exact ih2 k ((mem_dictKeys_registryUpdate _ _ _ _).mpr (Or.inl hk))
        · rw [ih3]
          simp [correctEntry_obj_id hid]
      · refine ⟨fun c => ?_, ih2, ?_⟩
        · rw [ih1 c, canonsOf_cons_none es hc]
        · rw [ih3]
          simp [correctEntry_eq_self_of_none hc]

/-- The key invariant of the reason registry: every key it holds was
flagged, so its canonical form differs from it or is in the seen set. -/
def registryInv (st : LoopState) : Prop :=
  ∀ k ∈ dictKeys st.invalid_ids, ¬ (clean_id k = k) ∨ clean_id k ∈ st.cleaned_ids

lemma registryInv_init : registryInv initState := by
  intro k hk
  exact absurd hk (by simp [initState, dictKeys])

lemma registryInv_step {st st' : LoopState} {e : Json}
    (h : processEntry st e = .ok st') (hinv : registryInv st) : registryInv st' := by
  rcases processEntry_ok_cases h with ⟨kvs, orig, rfl, hid, rfl⟩ | ⟨hc, rfl⟩
  · intro k hk
    simp only at hk ⊢
    rw [mem_dictKeys_registryUpdate] at hk
    rcases hk with hk | ⟨rfl, hcond⟩
    · rcases hinv k hk with hne | hmem
      · exact Or.inl hne
      · exact Or.inr ((mem_setAdd _ _ _).mpr (Or.inr hmem))
    · rcases hcond with hne | hmem
      · exact Or.inl hne
      · exact Or.inr ((mem_setAdd _ _ _).mpr (Or.inr hmem))
  · exact hinv

lemma filter_space_absorb (l : List Char) :
    (l.filter (fun c => ¬ (c = ' '))).filter isAllowedStrict =
      l.filter isAllowedStrict := by
  induction l with
  | nil => rfl
  | cons c cs ih =>
    by_cases h : isAllowedStrict c = true
    · have hs : c ≠ ' ' := allowed_ne_space h
      rw [List.filter_cons, if_pos (by simpa using hs), List.filter_cons, if_pos h,
        List.filter_cons, if_pos h, ih]
    · by_cases h2 : c = ' '
      · subst h2
        rw [List.filter_cons, if_neg (by simp), List.filter_cons,
          if_neg (by simpa using h), ih]
      · rw [List.filter_cons, if_pos (by simpa using h2), List.filter_cons,
          if_neg (by simpa using h), List.filter_cons, if_neg (by simpa using h), ih]

/-- The space-removal step of `clean_id` is absorbed by the regex filter
(a space is outside `[a-z_]` anyway). -/
lemma clean_id_eq_filter (s : List Char) :
    clean_id s = (s.map pyLower).filter isAllowedStrict := by
  unfold clean_id
  exact filter_space_absorb (s.map pyLower)

lemma clean_id_eq_nil_of_disallowed {s : List Char}
    (h : ∀ c ∈ s, isAllowedStrict (pyLower c) = false) : clean_id s = [] := by
  rw [clean_id_eq_filter, List.filter_eq_nil_iff]
  intro a ha
  obtain ⟨c, hc, rfl⟩ := List.mem_map.mp ha
  simp [h c hc]

lemma replaceSub_eq_self_of_not_contains {pat t : List Char} (repl : List Char)
    (h : strContains t pat = false) : replaceSub pat repl t = t := by
  induction t with
  | nil => rw [replaceSub]
  | cons c rest ih =>
    rw [strContains, Bool.or_eq_false_iff] at h
    rw [replaceSub, dif_neg (fun hc => by rw [hc.2] at h; exact absurd h.1 (by simp)),
      ih h.2]

lemma registryInv_run {l : List Json} :
    ∀ {st0 st : LoopState}, processEntries st0 l = .ok st → registryInv st0 →
      registryInv st := by
  induction l with
  | nil =>
    intro st0 st h h0
    cases h
    exact h0
  | cons e es ih =>
    intro st0 st h h0
    simp only [processEntries] at h
    cases hpe : processEntry st0 e with
    | error err =>
      rw [hpe] at h
      exact absurd h (by simp)
    | ok st1 =>
      rw [hpe] at h
      exact ih h (registryInv_step hpe h0)

/-- Splitting a completed run at one entry: the loop result on the prefix,
the state after the entry, and the final state. -/
lemma runEntries_decompose {pre post : List Json} {e : Json}
    (hok : entriesOk (pre ++ e :: post) = true) :
    ∃ stPre stMid stF,
      runEntries pre = .ok stPre ∧
      processEntry stPre e = .ok stMid ∧
      processEntries stMid post = .ok stF ∧
      runEntries (pre ++ e :: post) = .ok stF := by
  unfold entriesOk at hok
  cases hrun : runEntries (pre ++ e :: post) with
  | error err =>
    rw [hrun] at hok
    exact absurd hok (by simp)
  | ok stF =>
    have h2 := hrun
    unfold runEntries at h2
    rw [processEntries_append] at h2
    cases hpre : processEntries initState pre with
    | error err =>
      rw [hpre] at h2
      exact absurd h2 (by simp)
    | ok stPre =>
      rw [hpre] at h2
      simp only [processEntries] at h2
      cases hmid : processEntry stPre e with
      | error err =>
        rw [hmid] at h2
        exact absurd h2 (by simp)
      | ok stMid =>
        rw [hmid] at h2
        exact ⟨stPre, stMid, stF, hpre, hmid, h2, rfl⟩

/-- On an `id`-bearing dict, the two shapes of `processEntry_ok_cases`
collapse to the first, with the witnesses equal to the given ones. -/
lemma processEntry_objId_state {st stMid : LoopState}
    {kvs : List (List Char × Json)} {orig : List Char}
    (hmid : processEntry st (Json.obj kvs) = .ok stMid)
    (hid : dictGet kvs idKey = some (Json.str orig)) :
    stMid = { cleaned_ids := setAdd st.cleaned_ids (clean_id orig)
              invalid_ids := registryUpdate st.invalid_ids st.cleaned_ids orig
              id_map := dictSet st.id_map orig (clean_id orig)
              out := st.out ++ [Json.obj (dictSet kvs idKey (Json.str (clean_id orig)))]
              dupFlags := st.dupFlags ++ [decide (clean_id orig ∈ st.cleaned_ids)] } := by
  rcases processEntry_ok_cases hmid with ⟨kvs2, orig2, heq, hid2, hstate⟩ | ⟨hc, _⟩
  · injection heq with heq2
    subst heq2
    rw [hid] at hid2
    injection hid2 with hid3
    injection hid3 with hid4
    subst hid4
    exact hstate
  · rw [entryCanon_obj_id hid] at hc
    exact absurd hc (by simp)

/-- After a completed prefix run from the fresh state, the seen-canonical
set holds exactly the canonicals of the prefix's `id`-bearing entries. -/
lemma runEntries_cleaned_eq {pre : List Json} {st : LoopState}
    (h : runEntries pre = .ok st) :
    ∀ c, c ∈ st.cleaned_ids ↔ c ∈ canonsOf pre := by
  intro c
  have h2 := (processEntries_ok_state h).1 c
  simpa [initState] using h2

/-! ## The claims -/

/-- C2, counterexample: the code supports no call-time policy choice — its
one normalizer `clean_id` always strips digits, so on `"a1"` it disagrees
with the permissive policy (allowed set `{a-z, 0-9, _}`) the claim says is
also selectable. -/
theorem claim_C2_counterexample :
    clean_id ("a1".data) = ("a".data) ∧
    permissive_normalize ("a1".data) = ("a1".data) ∧
    ¬ (clean_id ("a1".data) = permissive_normalize ("a1".data)) := by
  refine ⟨?_, ?_, ?_⟩ <;> decide

/-- C2, amended: the source implements exactly one policy, the strict one,
with no configuration parameter: for every input string `clean_id` keeps,
after lowercasing, exactly the characters of the strict allowed set
`{a-z, _}` (the space-removal step is subsumed by that filter; digits are
always stripped). -/
theorem claim_C2_strict_policy_only (s : List Char) :
    clean_id s = (s.map pyLower).filter isAllowedStrict :=
  clean_id_eq_filter s

/-- C5: the normalizer is idempotent — `clean_id (clean_id x) = clean_id x`
for every string `x`. -/
theorem claim_C5_normalize_idempotent (s : List Char) :
    clean_id (clean_id s) = clean_id s :=
  clean_id_of_allowed (fun _ hc => mem_clean_id_allowed hc)

/-- C6: character-set closure — every character of `clean_id x` lies in the
strict allowed set `{a-z, _}`, and the result is never longer than the
input. -/
theorem claim_C6_charset_closure (s : List Char) :
    (∀ c ∈ clean_id s, isAllowedStrict c = true) ∧
      (clean_id s).length ≤ s.length := by
  refine ⟨fun _ hc => mem_clean_id_allowed hc, ?_⟩
  unfold clean_id
  have h1 := List.length_filter_le isAllowedStrict
    ((s.map pyLower).filter (fun c => ¬ (c = ' ')))
  have h2 := List.length_filter_le (fun c => ¬ (c = ' ')) (s.map pyLower)
  have h3 : (s.map pyLower).length = s.length := List.length_map _ _
  omega

/-- C8: the annotator folds over the reason registry in insertion order;
each pair replaces every occurrence of the quoted original id (the
scanning `str.replace` equals the split-and-rejoin "replace every
occurrence" reading) by the quoted reason-bearing span; a text without the
quoted occurrence (for instance containing the id unquoted) is left
unchanged by that pair; and each later pair operates on the text already
rewritten by the earlier ones. -/
theorem claim_C8_annotator :
    (∀ (invalid_ids : List (List Char × List Char)) (text : List Char),
      highlight_ids_in_text text invalid_ids =
        invalid_ids.foldl (fun acc pr =>
          replaceEveryOccurrence (quoted pr.1) (quoted (spanFor pr.1 pr.2)) acc)
          text) ∧
    (∀ orig reason text, strContains text (quoted orig) = false →
      replaceSub (quoted orig) (quoted (spanFor orig reason)) text = text) ∧
    (∀ pr rest (text : List Char),
      highlight_ids_in_text text (pr :: rest) =
        highlight_ids_in_text
          (replaceSub (quoted pr.1) (quoted (spanFor pr.1 pr.2)) text) rest) := by
  refine ⟨fun ids text => ?_, fun o r t h => replaceSub_eq_self_of_not_contains _ h,
    fun pr rest text => rfl⟩
  unfold highlight_ids_in_text
  have hfun : (fun (acc : List Char) (pr : List Char × List Char) =>
      replaceSub (quoted pr.1) (quoted (spanFor pr.1 pr.2)) acc) =
      (fun acc pr =>
        replaceEveryOccurrence (quoted pr.1) (quoted (spanFor pr.1 pr.2)) acc) := by
    funext acc pr
    exact replaceSub_eq_replaceEveryOccurrence _ _ _
  rw [hfun]

/-- C8, witness: a text containing `ab` but not `"ab"` is untouched by the
pair `(ab, duplicate)`. -/
theorem claim_C8_witness :
    replaceSub (quoted ("ab".data)) (quoted (spanFor ("ab".data) ("duplicate".data)))
      ("x ab y".data) = ("x ab y".data) :=
  claim_C8_annotator.2.1 ("ab".data) ("duplicate".data) ("x ab y".data) (by decide)

/-- C3: reason completeness, read at the moment the entry is processed —
for any completed run split around an `id`-bearing entry, the entry's
original id is a key of the registry right after that entry is processed
iff its canonical form differs from it or its canonical form was already
in the seen-canonical set; and (the registry only growing) a flagged
original is still a key of the final registry. -/
theorem claim_C3_reason_completeness (pre post : List Json)
    (kvs : List (List Char × Json)) (orig : List Char)
    (hok : entriesOk (pre ++ Json.obj kvs :: post) = true)
    (hid : dictGet kvs idKey = some (Json.str orig)) :
    ∃ stPre stMid stF,
      runEntries pre = .ok stPre ∧
      processEntry stPre (Json.obj kvs) = .ok stMid ∧
      runEntries (pre ++ Json.obj kvs :: post) = .ok stF ∧
      (orig ∈ dictKeys stMid.invalid_ids ↔
        (¬ (clean_id orig = orig) ∨ clean_id orig ∈ stPre.cleaned_ids)) ∧
      ((¬ (clean_id orig = orig) ∨ clean_id orig ∈ stPre.cleaned_ids) →
        orig ∈ dictKeys stF.invalid_ids) := by
  obtain ⟨stPre, stMid, stF, hpre, hmid, hpost, hrun⟩ := runEntries_decompose hok
  have hstate := processEntry_objId_state hmid hid
  have hreg : stMid.invalid_ids =
      registryUpdate stPre.invalid_ids stPre.cleaned_ids orig := by
    rw [hstate]
  have hinv : registryInv stPre := registryInv_run hpre registryInv_init
  refine ⟨stPre, stMid, stF, hpre, hmid, hrun, ?_, ?_⟩
  · rw [hreg, mem_dictKeys_registryUpdate]
    constructor
    · rintro (hk | ⟨-, hcond⟩)
      · exact hinv orig hk
      · exact hcond
    · intro hcond
      exact Or.inr ⟨rfl, hcond⟩
  · intro hcond
    have hmem : orig ∈ dictKeys stMid.invalid_ids := by
      rw [hreg, mem_dictKeys_registryUpdate]
      exact Or.inr ⟨rfl, hcond⟩
    exact (processEntries_ok_state hpost).2.1 orig hmem

/-- C3, witness: a single entry with id `A` (canonical `a`): flagged, and
the key persists to the final registry. -/
theorem claim_C3_witness :
    ∃ stPre stMid stF,
      runEntries [] = .ok stPre ∧
      processEntry stPre (Json.obj [(idKey, Json.str ("A".data))]) = .ok stMid ∧
      runEntries ([] ++ Json.obj [(idKey, Json.str ("A".data))] :: []) = .ok stF ∧
      (("A".data) ∈ dictKeys stMid.invalid_ids ↔
        (¬ (clean_id ("A".data) = ("A".data)) ∨
          clean_id ("A".data) ∈ stPre.cleaned_ids)) ∧
      ((¬ (clean_id ("A".data) = ("A".data)) ∨
          clean_id ("A".data) ∈ stPre.cleaned_ids) →
        ("A".data) ∈ dictKeys stF.invalid_ids) :=
  claim_C3_reason_completeness [] [] [(idKey, Json.str ("A".data))] ("A".data)
    rfl rfl

/-- C4: processing in input order, an `id`-bearing entry is flagged as
duplicate (the branch of source line 89 fires, recorded in `dupFlags`)
exactly when some earlier `id`-bearing entry produced the same canonical —
so a canonical's first occurrence is never flagged and every later
occurrence is — and the canonical is added to the seen set
unconditionally. -/
theorem claim_C4_duplicate_flagging (pre post : List Json)
    (kvs : List (List Char × Json)) (orig : List Char)
    (hok : entriesOk (pre ++ Json.obj kvs :: post) = true)
    (hid : dictGet kvs idKey = some (Json.str orig)) :
    ∃ stPre stMid,
      runEntries pre = .ok stPre ∧
      processEntry stPre (Json.obj kvs) = .ok stMid ∧
      stMid.dupFlags = stPre.dupFlags ++ [decide (clean_id orig ∈ canonsOf pre)] ∧
      stMid.cleaned_ids = setAdd stPre.cleaned_ids (clean_id orig) ∧
      clean_id orig ∈ stMid.cleaned_ids := by
  obtain ⟨stPre, stMid, stF, hpre, hmid, hpost, hrun⟩ := runEntries_decompose hok
  have hstate := processEntry_objId_state hmid hid
  have hseen := runEntries_cleaned_eq hpre
  have hflags : stMid.dupFlags =
      stPre.dupFlags ++ [decide (clean_id orig ∈ stPre.cleaned_ids)] := by
    rw [hstate]
  have hcl : stMid.cleaned_ids = setAdd stPre.cleaned_ids (clean_id orig) := by
    rw [hstate]
  refine ⟨stPre, stMid, hpre, hmid, ?_, hcl, ?_⟩
  · rw [hflags, decide_eq_decide.mpr (hseen (clean_id orig))]
  · rw [hcl]
    exact mem_setAdd_self _ _

/-- C4, witness: the third of three entries with canonical `a` — its flag
is `decide (a ∈ canonsOf pre)`, which is `true` here. -/
theorem claim_C4_witness :
    ∃ stPre stMid,
      runEntries [Json.obj [(idKey, Json.str ("a".data))],
        Json.obj [(idKey, Json.str ("a".data))]] = .ok stPre ∧
      processEntry stPre (Json.obj [(idKey, Json.str ("a".data))]) = .ok stMid ∧
      stMid.dupFlags = stPre.dupFlags ++
        [decide (clean_id ("a".data) ∈ canonsOf [Json.obj [(idKey, Json.str ("a".data))],
          Json.obj [(idKey, Json.str ("a".data))]])] ∧
      stMid.cleaned_ids = setAdd stPre.cleaned_ids (clean_id ("a".data)) ∧
      clean_id ("a".data) ∈ stMid.cleaned_ids :=
  claim_C4_duplicate_flagging
    [Json.obj [(idKey, Json.str ("a".data))], Json.obj [(idKey, Json.str ("a".data))]]
    [] [(idKey, Json.str ("a".data))] ("a".data) rfl rfl

/-- C9: an id made entirely of disallowed characters is rewritten to the
empty string in the corrected entry, the empty string joins the
seen-canonical set, and such an entry is flagged as duplicate exactly when
an earlier entry's canonical was already the empty string — empty
canonicals take part in duplicate detection like any other value. -/
theorem claim_C9_empty_canonical (pre post : List Json)
    (kvs : List (List Char × Json)) (orig : List Char)
    (hok : entriesOk (pre ++ Json.obj kvs :: post) = true)
    (hid : dictGet kvs idKey = some (Json.str orig))
    (hdis : ∀ c ∈ orig, isAllowedStrict (pyLower c) = false) :
    clean_id orig = [] ∧
    ∃ stPre stMid,
      runEntries pre = .ok stPre ∧
      processEntry stPre (Json.obj kvs) = .ok stMid ∧
      stMid.out.getLast? = some (Json.obj (dictSet kvs idKey (Json.str []))) ∧
      ([] : List Char) ∈ stMid.cleaned_ids ∧
      stMid.dupFlags = stPre.dupFlags ++
        [decide (([] : List Char) ∈ canonsOf pre)] := by
  have hnil : clean_id orig = [] := clean_id_eq_nil_of_disallowed hdis
  obtain ⟨stPre, stMid, stF, hpre, hmid, hpost, hrun⟩ := runEntries_decompose hok
  have hstate := processEntry_objId_state hmid hid
  have hout : stMid.out =
      stPre.out ++ [Json.obj (dictSet kvs idKey (Json.str (clean_id orig)))] := by
    rw [hstate]
  have hcl : stMid.cleaned_ids = setAdd stPre.cleaned_ids (clean_id orig) := by
    rw [hstate]
  have hflags : stMid.dupFlags =
      stPre.dupFlags ++ [decide (clean_id orig ∈ stPre.cleaned_ids)] := by
    rw [hstate]
  refine ⟨hnil, stPre, stMid, hpre, hmid, ?_, ?_, ?_⟩
  · rw [hout, hnil, List.getLast?_concat]
  · rw [hcl, hnil]
    exact mem_setAdd_self _ _
  · rw [hflags, hnil, decide_eq_decide.mpr (runEntries_cleaned_eq hpre [])]

/-- C9, witness: `1` and `!` both normalize to the empty string; the
second entry's duplicate flag is `decide ([] ∈ canonsOf pre)`, true
here. -/
theorem claim_C9_witness :
    clean_id ("!".data) = [] ∧
    ∃ stPre stMid,
      runEntries [Json.obj [(idKey, Json.str ("1".data))]] = .ok stPre ∧
      processEntry stPre (Json.obj [(idKey, Json.str ("!".data))]) = .ok stMid ∧
      stMid.out.getLast? =
        some (Json.obj (dictSet [(idKey, Json.str ("!".data))] idKey (Json.str []))) ∧
      ([] : List Char) ∈ stMid.cleaned_ids ∧
      stMid.dupFlags = stPre.dupFlags ++
        [decide (([] : List Char) ∈ canonsOf [Json.obj [(idKey, Json.str ("1".data))]])] :=
  claim_C9_empty_canonical [Json.obj [(idKey, Json.str ("1".data))]] []
    [(idKey, Json.str ("!".data))] ("!".data) rfl rfl (by decide)

/-- C7: the corrected output is the input mapped entrywise through
`correctEntry`; an entry without an `id` (in particular any non-dict that
got through, and any dict with no `id` key) is passed through unchanged,
and an `id`-bearing dict changes in its `id` binding only: the `id` now
holds the canonical form, every other key's binding is untouched. -/
theorem claim_C7_frame (entries : List Json) (hok : entriesOk entries = true) :
    ∃ stF, runEntries entries = .ok stF ∧
      stF.out = entries.map correctEntry ∧
      (∀ e, entryCanon e = none → correctEntry e = e) ∧
      (∀ (kvs : List (List Char × Json)) (orig : List Char),
        dictGet kvs idKey = some (Json.str orig) →
        correctEntry (Json.obj kvs) =
          Json.obj (dictSet kvs idKey (Json.str (clean_id orig))) ∧
        dictGet (dictSet kvs idKey (Json.str (clean_id orig))) idKey =
          some (Json.str (clean_id orig)) ∧
        (∀ k, ¬ (k = idKey) →
          dictGet (dictSet kvs idKey (Json.str (clean_id orig))) k =
            dictGet kvs k)) := by
  unfold entriesOk at hok
  cases hrun : runEntries entries with
  | error err =>
    rw [hrun] at hok
    exact absurd hok (by simp)
  | ok stF =>
    refine ⟨stF, rfl, ?_, fun e he => correctEntry_eq_self_of_none he,
      fun kvs orig hid => ⟨correctEntry_obj_id hid, dictGet_dictSet_self _ _ _,
        fun k hk => dictGet_dictSet_ne _ _ hk⟩⟩
    have h := (processEntries_ok_state hrun).2.2
    simpa [initState] using h

/-- C7, witness: a two-entry document — one `id`-bearing dict, one dict
without `id`. -/
theorem claim_C7_witness :
    ∃ stF, runEntries [Json.obj [(idKey, Json.str ("A".data))],
        Json.obj [(("x".data), Json.num 3)]] = .ok stF ∧
      stF.out = [Json.obj [(idKey, Json.str ("A".data))],
        Json.obj [(("x".data), Json.num 3)]].map correctEntry ∧
      (∀ e, entryCanon e = none → correctEntry e = e) ∧
      (∀ (kvs : List (List Char × Json)) (orig : List Char),
        dictGet kvs idKey = some (Json.str orig) →
        correctEntry (Json.obj kvs) =
          Json.obj (dictSet kvs idKey (Json.str (clean_id orig))) ∧
        dictGet (dictSet kvs idKey (Json.str (clean_id orig))) idKey =
          some (Json.str (clean_id orig)) ∧
        (∀ k, ¬ (k = idKey) →
          dictGet (dictSet kvs idKey (Json.str (clean_id orig))) k =
            dictGet kvs k)) :=
  claim_C7_frame [Json.obj [(idKey, Json.str ("A".data))],
    Json.obj [(("x".data), Json.num 3)]] rfl

lemma nodup_registryUpdate (inv : List (List Char × List Char))
    (cleaned : List (List Char)) (orig : List Char)
    (h : (dictKeys inv).Nodup) :
    (dictKeys (registryUpdate inv cleaned orig)).Nodup := by
  simp only [registryUpdate]
  split_ifs <;>
    first
    | exact nodup_dictKeys_dictSet _ _ _ (nodup_dictKeys_dictSet _ _ _ h)
    | exact nodup_dictKeys_dictSet _ _ _ h
    | exact h

lemma nodup_registry_step {st st' : LoopState} {e : Json}
    (h : processEntry st e = .ok st')
    (hn : (dictKeys st.invalid_ids).Nodup) :
    (dictKeys st'.invalid_ids).Nodup := by
  rcases processEntry_ok_cases h with ⟨kvs, orig, rfl, hid, rfl⟩ | ⟨hc, rfl⟩
  · exact nodup_registryUpdate _ _ _ hn
  · exact hn

lemma nodup_registry_run {l : List Json} :
    ∀ {st0 st : LoopState}, processEntries st0 l = .ok st →
      (dictKeys st0.invalid_ids).Nodup → (dictKeys st.invalid_ids).Nodup := by
  induction l with
  | nil =>
    intro st0 st h h0
    cases h
    exact h0
  | cons e es ih =>
    intro st0 st h h0
    simp only [processEntries] at h
    cases hpe : processEntry st0 e with
    | error err =>
      rw [hpe] at h
      exact absurd h (by simp)
    | ok st1 =>
      rw [hpe] at h
      exact ih h (nodup_registry_step hpe h0)

/-- C10, counterexample: the original id `A` (canonical `a`) in three
entries.  After the second occurrence the reason is
`invalid characters or uppercase (duplicate)`; the third occurrence first
resets the reason to `invalid characters or uppercase` (source line 86)
and then appends a single ` (duplicate)`, so the registry value is
unchanged — it does not gain one more ` (duplicate)` suffix per
occurrence after the first. -/
theorem claim_C10_counterexample :
    dictGet (finalReasons [Json.obj [(idKey, Json.str ("A".data))],
      Json.obj [(idKey, Json.str ("A".data))]]) ("A".data) =
      some ("invalid characters or uppercase (duplicate)".data) ∧
    dictGet (finalReasons [Json.obj [(idKey, Json.str ("A".data))],
      Json.obj [(idKey, Json.str ("A".data))],
      Json.obj [(idKey, Json.str ("A".data))]]) ("A".data) =
      some ("invalid characters or uppercase (duplicate)".data) ∧
    ¬ (dictGet (finalReasons [Json.obj [(idKey, Json.str ("A".data))],
      Json.obj [(idKey, Json.str ("A".data))],
      Json.obj [(idKey, Json.str ("A".data))]]) ("A".data) =
      some ("invalid characters or uppercase (duplicate) (duplicate)".data)) := by
  refine ⟨?_, ?_, ?_⟩ <;> decide

/-- C10, amended: occurrences of one original id always share a single
registry key (the registry's keys stay duplicate-free); an
already-canonical id appearing three times ends with reason
`duplicate (duplicate)` (the second occurrence sets `duplicate`, each
later one appends ` (duplicate)`); but for a non-canonical original each
occurrence first resets the reason to `invalid characters or uppercase`,
so at most one ` (duplicate)` suffix ever accumulates. -/
theorem claim_C10_reason_accumulation :
    (∀ entries, (dictKeys (finalReasons entries)).Nodup) ∧
    dictGet (finalReasons [Json.obj [(idKey, Json.str ("a".data))],
      Json.obj [(idKey, Json.str ("a".data))],
      Json.obj [(idKey, Json.str ("a".data))]]) ("a".data) =
      some ("duplicate (duplicate)".data) ∧
    dictGet (finalReasons [Json.obj [(idKey, Json.str ("A".data))],
      Json.obj [(idKey, Json.str ("A".data))],
      Json.obj [(idKey, Json.str ("A".data))]]) ("A".data) =
      some ("invalid characters or uppercase (duplicate)".data) := by
  refine ⟨fun entries => ?_, by decide, by decide⟩
  unfold finalReasons
  cases hrun : runEntries entries with
  | error err => simp [dictKeys]
  | ok st => exact nodup_registry_run hrun (by simp [initState, dictKeys])

/-- An entry the loop body cannot raise on: a dict whose `id` value, when
present, is a string. -/
def wfEntry (e : Json) : Bool :=
  match e with
  | .obj kvs =>
    match dictGet kvs idKey with
    | some (.str _) => true
    | some _ => false
    | none => true
  | _ => false

/-- Raw text whose parse, when it succeeds, yields a JSON object whose
`objects` member, when it is an array, holds only well-formed entries. -/
def wfParsed (t : List Char) : Bool :=
  match json_loads t with
  | .error _ => true
  | .ok (.obj kvs) =>
    match dictGet kvs objectsKey with
    | some (.arr xs) => xs.all wfEntry
    | _ => true
  | .ok _ => false

/-- Whether the run's outcome is an uncaught exception rather than a
success or one of the three reported error kinds. -/
def isPyException (r : Except VError RunOutput) : Bool :=
  match r with
  | .error (.pyException _) => true
  | _ => false

lemma processEntry_ok_of_wf (st : LoopState) (e : Json) (h : wfEntry e = true) :
    ∃ st', processEntry st e = .ok st' := by
  cases e with
  | obj kvs =>
    cases hid : dictGet kvs idKey with
    | none =>
      exact ⟨{ st with out := st.out ++ [Json.obj kvs] },
        by simp only [processEntry, hid]⟩
    | some v =>
      cases v with
      | str s =>
        exact ⟨{ cleaned_ids := setAdd st.cleaned_ids (clean_id s)
                 invalid_ids := registryUpdate st.invalid_ids st.cleaned_ids s
                 id_map := dictSet st.id_map s (clean_id s)
                 out := st.out ++ [Json.obj (dictSet kvs idKey (Json.str (clean_id s)))]
                 dupFlags := st.dupFlags ++ [decide (clean_id s ∈ st.cleaned_ids)] },
          by simp only [processEntry, hid]⟩
      | null => simp [wfEntry, hid] at h
      | bool b => simp [wfEntry, hid] at h
      | num n => simp [wfEntry, hid] at h
      | arr xs => simp [wfEntry, hid] at h
      | obj ms => simp [wfEntry, hid] at h
  | null => simp [wfEntry] at h
  | bool b => simp [wfEntry] at h
  | num n => simp [wfEntry] at h
  | str s => simp [wfEntry] at h
  | arr elems => simp [wfEntry] at h

lemma processEntries_ok_of_wf {l : List Json} :
    ∀ st0, (∀ e ∈ l, wfEntry e = true) → ∃ st, processEntries st0 l = .ok st := by
  induction l with
  | nil => exact fun st0 _ => ⟨st0, rfl⟩
  | cons e es ih =>
    intro st0 h
    obtain ⟨st1, h1⟩ := processEntry_ok_of_wf st0 e (h e (List.mem_cons_self e es))
    obtain ⟨st, h2⟩ := ih st1 (fun x hx => h x (List.mem_cons_of_mem e hx))
    exact ⟨st, by simp only [processEntries, h1, h2]⟩

/-- C1, counterexample: the raw text `5` strips to nonempty, parses, and
then `"objects" not in data` raises `TypeError` on the integer — the
exception escapes the validation boundary, so the caller gets neither a
success nor one of the three error kinds. -/
theorem claim_C1_counterexample :
    isPyException (runValidation ("5".data)) = true := by
  decide

/-- C1, amended: for raw text whose parse (when it succeeds) yields a JSON
object whose `objects` array (when present) holds only dicts with
string-or-absent `id`, the run never lets an exception escape: the caller
receives a success or exactly one of EmptyInput, ParseError, SchemaError
(the constructors of `VError` besides `pyException`). -/
theorem claim_C1_boundary (text : List Char) (h : wfParsed text = true) :
    isPyException (runValidation text) = false := by
  unfold runValidation
  by_cases hs : pyStrip text = []
  · rw [if_pos hs]
    rfl
  · rw [if_neg hs]
    cases hj : json_loads text with
    | error m => rfl
    | ok data =>
      cases data with
      | obj kvs =>
        simp only [wfParsed, hj] at h
        simp only [getObjects]
        cases ho : dictGet kvs objectsKey with
        | none => rfl
        | some v =>
          simp only [ho] at h
          cases v with
          | arr xs =>
            have hwf : ∀ e ∈ xs, wfEntry e = true := by
              intro e he
              exact List.all_eq_true.mp h e he
            obtain ⟨st, hst⟩ := processEntries_ok_of_wf initState hwf
            show isPyException
              (match runEntries xs with
               | Except.error e => Except.error (VError.pyException e)
               | Except.ok st =>
                 Except.ok
                   { corrected := setObjects (Json.obj kvs) (Json.arr st.out)
                     invalid_ids := st.invalid_ids
                     highlighted :=
                       if st.invalid_ids = [] then none
                       else some (highlight_ids_in_text text st.invalid_ids) }) = false
            rw [show runEntries xs = .ok st from hst]
            rfl
          | null => rfl
          | bool b => rfl
          | num n => rfl
          | str s => rfl
          | obj ms => rfl
      | null => simp [wfParsed, hj] at h
      | bool b => simp [wfParsed, hj] at h
      | num n => simp [wfParsed, hj] at h
      | str s => simp [wfParsed, hj] at h
      | arr xs => simp [wfParsed, hj] at h

/-- C1, witness: a well-formed document runs to a non-exception outcome. -/
theorem claim_C1_witness :
    wfParsed (("\x7b\"objects\": [\x7b\"id\": \"A\"\x7d]\x7d").data) = true ∧
    isPyException
      (runValidation (("\x7b\"objects\": [\x7b\"id\": \"A\"\x7d]\x7d").data)) = false :=
  ⟨by decide, claim_C1_boundary (("\x7b\"objects\": [\x7b\"id\": \"A\"\x7d]\x7d").data)
    (by decide)⟩

end ValidateJsonId
